import Mathlib

/-!
Shallow embedding of the inventory-ledger / allocation / reservation core of
the warehouse bot system (src/Main/bot1/main.py and src/Main/bot2/main.py).

The relational store is modelled as in-memory lists: the inventory table is a
list of records keyed by (sku, lot, location), the reservations table a list of
reservation rows.  Each SQL statement of the source is translated directly:

* SELECT ... WHERE key (fetch_one)          -> List.find?
* SELECT ... WHERE sku AND quantity > 0
  ORDER BY inbound_date ASC (fetch_all)     -> filter + stable insertion sort
* UPDATE ... SET quantity = v WHERE key     -> map over the list (setQty)
* UPDATE ... SET quantity = quantity + d    -> map over the list (addQty)
* INSERT                                    -> list append

Python integers are modelled as Int, dates as Nat day numbers.  The per-item
bodies of the multi-item loops (process_inbound_item, process_return_item,
process_adjust_in_item, process_outbound_items) are modelled as single-item
functions; the loop around them only zips independent items.
-/

namespace WMS

/-- Reservation status values stored in the reservations table
('PENDING', 'PICKED', 'RETURNED', 'CANCELLED'). -/
inductive Status where
  | pending
  | picked
  | returned
  | cancelled
  deriving DecidableEq, Repr

/-- One row of the inventory table (bot1/bot2): identity (sku, lot, location),
quantity, inbound_date, plus the audit columns written by every UPDATE. -/
structure InvRecord where
  sku : String
  lot : String
  location : String
  quantity : Int
  inboundDate : Nat
  lastUpdatedDate : Nat := 0
  lastUpdatedBy : String := ""
  idStamp : String := ""
  createdBy : String := ""
  deriving DecidableEq, Repr

/-- One row of the reservations table (bot2): reserve_id, sku, quantity,
reserved_by, reservation_date, status, reserved_lot, reserved_location,
id_stamp and the terminal-transition metadata columns.  reserved_lot and
reserved_location are nullable (the INSERT in process_reserve_item can store
None when no deduction was recorded). -/
structure Reservation where
  reserveId : String
  sku : String
  quantity : Int
  reservedBy : String
  reservationDate : Nat
  status : Status
  reservedLot : Option String
  reservedLocation : Option String
  idStamp : String := ""
  pickupDate : Option Nat := none
  pickedBy : Option String := none
  returnDate : Option Nat := none
  returnedBy : Option String := none
  returnReason : Option String := none
  cancelDate : Option Nat := none
  cancelledBy : Option String := none
  cancelReason : Option String := none
  deriving DecidableEq, Repr

/-- The database state touched by the core: the inventory table and the
reservations table. -/
structure WState where
  inventory : List InvRecord
  reservations : List Reservation
  deriving DecidableEq, Repr

/-- Error outcomes recorded by the handlers (the error_message strings of the
source, abstracted to their kinds; see spec section 7). -/
inductive OpError where
  | invalidQuantity
  | invalidDate
  | noStock
  | insufficientStock
  | recordNotFound
  | negativeQuantity
  | reservationNotFound
  | overPick
  | nameError
  deriving DecidableEq, Repr

/-- WHERE sku = ? AND lot = ? AND location = ? : the exact-key row predicate. -/
def invKeyB (r : InvRecord) (sku lot loc : String) : Bool :=
  decide (r.sku = sku ∧ r.lot = lot ∧ r.location = loc)

/-- SELECT ... FROM inventory WHERE sku = ? AND lot = ? AND location = ?
with fetch_one: the first row matching the key. -/
def lookupRecord (inv : List InvRecord) (sku lot loc : String) : Option InvRecord :=
  inv.find? (fun r => invKeyB r sku lot loc)

/-- UPDATE inventory SET quantity = ?, last_updated_date = ?,
last_updated_by = ?, id_stamp = ? WHERE sku = ? AND lot = ? AND location = ?
(the absolute-value form used by inbound, return, adjustment, outbound and
reservation deductions). -/
def setQty (inv : List InvRecord) (sku lot loc : String) (newQty : Int)
    (now : Nat) (user stamp : String) : List InvRecord :=
  inv.map fun r =>
    if invKeyB r sku lot loc then
      { r with quantity := newQty, lastUpdatedDate := now,
               lastUpdatedBy := user, idStamp := stamp }
    else r

/-- UPDATE inventory SET quantity = quantity + ?, ... WHERE sku = ? AND
lot = ? AND location = ? (the relative form used by process_reserve_return and
process_reserve_cancel). -/
def addQty (inv : List InvRecord) (sku lot loc : String) (delta : Int)
    (now : Nat) (user stamp : String) : List InvRecord :=
  inv.map fun r =>
    if invKeyB r sku lot loc then
      { r with quantity := r.quantity + delta, lastUpdatedDate := now,
               lastUpdatedBy := user, idStamp := stamp }
    else r

/-- ORDER BY inbound_date ASC comparison. -/
def dateLe (a b : InvRecord) : Prop :=
  a.inboundDate ≤ b.inboundDate

instance : DecidableRel dateLe :=
  fun a b => Nat.decLe a.inboundDate b.inboundDate

instance : IsTrans InvRecord dateLe :=
  ⟨fun _ _ _ => Nat.le_trans⟩

instance : IsTotal InvRecord dateLe :=
  ⟨fun a b => Nat.le_total a.inboundDate b.inboundDate⟩

/-- SELECT lot, location, quantity, inbound_date FROM inventory WHERE sku = ?
AND quantity > 0 ORDER BY inbound_date ASC: the available-stock snapshot used
by the allocation walks of process_outbound_items and process_reserve_item.
The sort is stable, matching the store returning same-date rows in natural
row order. -/
def listAvailable (inv : List InvRecord) (sku : String) : List InvRecord :=
  List.insertionSort dateLe (inv.filter fun r => decide (r.sku = sku ∧ 0 < r.quantity))

/-- total_available = sum(s[2] for s in available_stock). -/
def availTotal (l : List InvRecord) : Int :=
  (l.map (fun r => r.quantity)).sum

/-- The FIFO deduction walk shared by process_outbound_items (lines 102-120)
and process_reserve_item (lines 247-267): walk the date-ordered snapshot, take
min(remaining, row.quantity) from each row, stop once remaining is exhausted.
Each element pairs the snapshot row with the quantity taken from it. -/
def allocDeductions (remaining : Int) : List InvRecord → List (InvRecord × Int)
  | [] => []
  | r :: rest =>
    if remaining ≤ 0 then []
    else
      (r, min remaining r.quantity) ::
        allocDeductions (remaining - min remaining r.quantity) rest

/-- Sum of the per-lot quantities taken by a deduction list. -/
def dedTotal (deds : List (InvRecord × Int)) : Int :=
  (deds.map (fun d => d.2)).sum

/-- Issue the UPDATE for each deduction, one lot at a time: the new quantity is
computed from the snapshot row (current_qty - qty_to_deduct), exactly as in the
source, not from the live table. -/
def applyDeductions (inv : List InvRecord) (sku : String) (now : Nat)
    (user stamp : String) : List (InvRecord × Int) → List InvRecord
  | [] => inv
  | (r, t) :: rest =>
      applyDeductions (setQty inv sku r.lot r.location (r.quantity - t) now user stamp)
        sku now user stamp rest

/-- One item of the /out loop (process_outbound_items, bot2 lines 72-123):
reject non-positive quantity, fetch the FIFO snapshot, reject empty stock and
insufficient totals without mutating, otherwise apply the deduction walk. -/
def process_outbound_item (st : WState) (sku : String) (qty : Int)
    (now : Nat) (user stamp : String) : WState × Option OpError :=
  if qty ≤ 0 then (st, some OpError.invalidQuantity)
  else
    let avail := listAvailable st.inventory sku
    if avail.isEmpty then (st, some OpError.noStock)
    else if availTotal avail < qty then (st, some OpError.insufficientStock)
    else
      ({ st with inventory :=
          applyDeductions st.inventory sku now user stamp (allocDeductions qty avail) },
        none)

/-- The /reserve flow (process_reserve_item, bot2 lines 216-301).  Faithful to
the source control flow: the empty-stock and insufficient-stock checks only set
the error flags (lines 235-244) and fall through - no continue or return - so
the deduction loop and the reservations INSERT still execute; the later
insufficient-stock assignment overwrites the empty-stock error message.  The
returned error is the error_message recorded in the transaction log. -/
def process_reserve_item (st : WState) (sku : String) (qty : Int)
    (resId : String) (now : Nat) (user stamp : String) : WState × Option OpError :=
  if qty ≤ 0 then (st, some OpError.invalidQuantity)
  else
    let avail := listAvailable st.inventory sku
    let err0 : Option OpError := if avail.isEmpty then some OpError.noStock else none
    let err : Option OpError :=
      if availTotal avail < qty then some OpError.insufficientStock else err0
    let deds := allocDeductions qty avail
    let inv2 := applyDeductions st.inventory sku now user stamp deds
    let res : Reservation :=
      { reserveId := resId, sku := sku, quantity := qty, reservedBy := user,
        reservationDate := now, status := Status.pending,
        reservedLot := deds.head?.map (fun d => d.1.lot),
        reservedLocation := deds.head?.map (fun d => d.1.location),
        idStamp := stamp }
    ({ inventory := inv2, reservations := st.reservations ++ [res] }, err)

/-- One item of the /adjust_in loop (process_adjust_in_item, bot1 lines
235-291): signed delta; reject when the resulting quantity would be negative;
reject when the (sku, lot, location) key does not exist (no INSERT branch - the
parsed date is validated but never used). -/
def process_adjust_in_item (st : WState) (sku : String) (delta : Int)
    (lot loc : String) (now : Nat) (user stamp : String) : WState × Option OpError :=
  match lookupRecord st.inventory sku lot loc with
  | some r =>
    if r.quantity + delta < 0 then (st, some OpError.negativeQuantity)
    else
      let inv2 := setQty st.inventory sku lot loc (r.quantity + delta) now user stamp
      ({ st with inventory := inv2 }, none)
  | none => (st, some OpError.recordNotFound)

/-- One item of the /in loop (process_inbound_item, bot1 lines 73-115): if the
key exists, UPDATE quantity to existing + qty (inbound_date untouched);
otherwise INSERT a new row whose inbound_date is the caller-supplied date. -/
def process_inbound_item (st : WState) (sku : String) (qty : Int)
    (lot : String) (recordDate : Nat) (loc : String)
    (now : Nat) (user stamp : String) : WState × Option OpError :=
  if qty ≤ 0 then (st, some OpError.invalidQuantity)
  else
    match lookupRecord st.inventory sku lot loc with
    | some r =>
      let inv2 := setQty st.inventory sku lot loc (r.quantity + qty) now user stamp
      ({ st with inventory := inv2 }, none)
    | none =>
      let newRec : InvRecord :=
        { sku := sku, lot := lot, location := loc, quantity := qty,
          inboundDate := recordDate, createdBy := user, idStamp := stamp }
      ({ st with inventory := st.inventory ++ [newRec] }, none)

/-- One item of the /return loop (process_return_item, bot1 lines 156-198):
identical shape to the inbound item; on INSERT the return date becomes the new
row's inbound_date. -/
def process_return_item (st : WState) (sku : String) (qty : Int)
    (lot : String) (returnDate : Nat) (loc : String)
    (now : Nat) (user stamp : String) : WState × Option OpError :=
  if qty ≤ 0 then (st, some OpError.invalidQuantity)
  else
    match lookupRecord st.inventory sku lot loc with
    | some r =>
      let inv2 := setQty st.inventory sku lot loc (r.quantity + qty) now user stamp
      ({ st with inventory := inv2 }, none)
    | none =>
      let newRec : InvRecord :=
        { sku := sku, lot := lot, location := loc, quantity := qty,
          inboundDate := returnDate, createdBy := user, idStamp := stamp }
      ({ st with inventory := st.inventory ++ [newRec] }, none)

/-- SELECT quantity, status FROM reservations WHERE reserve_id = ? AND
sku = ? AND reserved_lot = ? AND reserved_location = ? AND status = 'PENDING'
(process_reserve_pick).  A stored NULL reserved_lot matches no parameter, as
in SQL. -/
def pickPred (rid sku lot loc : String) (rv : Reservation) : Bool :=
  decide (rv.reserveId = rid ∧ rv.sku = sku ∧ rv.reservedLot = some lot ∧
          rv.reservedLocation = some loc ∧ rv.status = Status.pending)

/-- Same SELECT without the status restriction (process_reserve_return matches
a reservation in any status). -/
def returnPred (rid sku lot loc : String) (rv : Reservation) : Bool :=
  decide (rv.reserveId = rid ∧ rv.sku = sku ∧ rv.reservedLot = some lot ∧
          rv.reservedLocation = some loc)

/-- SELECT ... FROM reservations WHERE reserve_id = ? AND status = 'PENDING'
(process_reserve_cancel). -/
def cancelPred (rid : String) (rv : Reservation) : Bool :=
  decide (rv.reserveId = rid ∧ rv.status = Status.pending)

/-- UPDATE reservations SET status = 'PICKED', pickup_date = ?, picked_by = ?
WHERE reserve_id = ? : applied to every row carrying the id. -/
def pickUpd (rid : String) (now : Nat) (user : String) (v : Reservation) : Reservation :=
  if v.reserveId = rid then
    { v with status := Status.picked, pickupDate := some now, pickedBy := some user }
  else v

/-- UPDATE reservations SET status = 'RETURNED', return_date = ?,
returned_by = ?, return_reason = ? WHERE reserve_id = ?. -/
def returnUpd (rid : String) (now : Nat) (user reason : String) (v : Reservation) : Reservation :=
  if v.reserveId = rid then
    { v with status := Status.returned, returnDate := some now,
             returnedBy := some user, returnReason := some reason }
  else v

/-- UPDATE reservations SET status = 'CANCELLED', cancel_date = ?,
cancelled_by = ?, cancel_reason = ? WHERE reserve_id = ?. -/
def cancelUpd (rid : String) (now : Nat) (user reason : String) (v : Reservation) : Reservation :=
  if v.reserveId = rid then
    { v with status := Status.cancelled, cancelDate := some now,
             cancelledBy := some user, cancelReason := some reason }
  else v

/-- The /reserve_pick flow (process_reserve_pick, bot2 lines 304-343): needs a
matching PENDING reservation, rejects over-picks, otherwise stamps the pick
metadata.  The inventory table is never touched. -/
def process_reserve_pick (st : WState) (sku : String) (qty : Int)
    (loc lot rid : String) (now : Nat) (user : String) : WState × Option OpError :=
  if qty ≤ 0 then (st, some OpError.invalidQuantity)
  else
    match st.reservations.find? (pickPred rid sku lot loc) with
    | none => (st, some OpError.reservationNotFound)
    | some rv =>
      if rv.quantity < qty then (st, some OpError.overPick)
      else
        ({ st with reservations := st.reservations.map (pickUpd rid now user) }, none)

/-- The /reserve_return flow (process_reserve_return, bot2 lines 362-422):
matches a reservation in any status, adds the caller-supplied quantity back to
the given lot/location and sets the status to RETURNED unconditionally. -/
def process_reserve_return (st : WState) (sku : String) (qty : Int)
    (loc lot rid reason : String) (now : Nat) (user stamp : String) :
    WState × Option OpError :=
  if qty ≤ 0 then (st, some OpError.invalidQuantity)
  else
    match st.reservations.find? (returnPred rid sku lot loc) with
    | none => (st, some OpError.reservationNotFound)
    | some _ =>
      ({ inventory := addQty st.inventory sku lot loc qty now user stamp,
         reservations := st.reservations.map (returnUpd rid now user reason) },
        none)

/-- The /reserve_cancel flow (process_reserve_cancel, bot2 lines 424-473):
needs a PENDING reservation with the id, adds the full reserved quantity back
at the stored reserved_lot/reserved_location (a stored NULL matches no
inventory row, as in SQL) and sets the status to CANCELLED. -/
def process_reserve_cancel (st : WState) (rid reason : String)
    (now : Nat) (user stamp : String) : WState × Option OpError :=
  match st.reservations.find? (cancelPred rid) with
  | none => (st, some OpError.reservationNotFound)
  | some rv =>
    let inv2 :=
      match rv.reservedLot, rv.reservedLocation with
      | some lot, some loc => addQty st.inventory rv.sku lot loc rv.quantity now user stamp
      | _, _ => st.inventory
    ({ inventory := inv2,
       reservations := st.reservations.map (cancelUpd rid now user reason) },
      none)

/-- WHERE status = 'PENDING' [AND sku = ?] filter of process_reserve_ck. -/
def ckFilter (skuFilter : Option String) (rv : Reservation) : Bool :=
  decide (rv.status = Status.pending) &&
    match skuFilter with
    | none => true
    | some s => decide (rv.sku = s)

/-- ORDER BY reservation_date ASC comparison. -/
def resDateLe (a b : Reservation) : Prop :=
  a.reservationDate ≤ b.reservationDate

instance : DecidableRel resDateLe :=
  fun a b => Nat.decLe a.reservationDate b.reservationDate

instance : IsTrans Reservation resDateLe :=
  ⟨fun _ _ _ => Nat.le_trans⟩

instance : IsTotal Reservation resDateLe :=
  ⟨fun a b => Nat.le_total a.reservationDate b.reservationDate⟩

/-- The /reserve_CK flow (process_reserve_ck, bot2 lines 475-527): read-only
SELECT of the PENDING reservations, optionally restricted to one SKU, ordered
by reservation_date ascending. -/
def process_reserve_ck (st : WState) (skuFilter : Option String) :
    WState × List Reservation :=
  (st, List.insertionSort resDateLe (st.reservations.filter (ckFilter skuFilter)))

/-- The /reserve_CK command handler (handle_reserve_ck_command, bot2 lines
779-801).  Line 799 reads args[0] but the local name args is never assigned in
this handler (its siblings all do args = context.args), so any nonempty
argument list raises NameError before process_reserve_ck is reached; only the
no-filter path works. -/
def handle_reserve_ck_command (st : WState) (contextArgs : List String) :
    WState × Except OpError (List Reservation) :=
  match contextArgs with
  | [] => ((process_reserve_ck st none).1, Except.ok (process_reserve_ck st none).2)
  | _ :: _ => (st, Except.error OpError.nameError)

/-- Sum of the quantity column over every row of one SKU (the SKU's total
available quantity in the sense of spec section 8's round-trip property). -/
def sumSku : List InvRecord → String → Int
  | [], _ => 0
  | r :: rest, sku => (if r.sku = sku then r.quantity else 0) + sumSku rest sku

/-- Sum of the quantity column over the rows of one exact (sku, lot, location)
key. -/
def sumAt : List InvRecord → String → String → String → Int
  | [], _, _, _ => 0
  | r :: rest, sku, lot, loc =>
      (if invKeyB r sku lot loc then r.quantity else 0) + sumAt rest sku lot loc

/-- Number of rows carrying one exact (sku, lot, location) key. -/
def countKey (inv : List InvRecord) (sku lot loc : String) : Nat :=
  (inv.filter fun r => invKeyB r sku lot loc).length

/-- The (sku, lot, location) identity of an inventory row. -/
def invKey (r : InvRecord) : String × String × String :=
  (r.sku, r.lot, r.location)

/-- The inventory table is well-keyed: no two rows share a
(sku, lot, location) identity. -/
def KeyNodup (inv : List InvRecord) : Prop :=
  (inv.map invKey).Nodup

/-- Fixture: lot A of SKU X, inbound day 1, 5 units (the spec section 8
scenario). -/
def recA : InvRecord :=
  { sku := "X", lot := "A", location := "L1", quantity := 5, inboundDate := 1 }

/-- Fixture: lot B of SKU X, inbound day 2, 10 units. -/
def recB : InvRecord :=
  { sku := "X", lot := "B", location := "L2", quantity := 10, inboundDate := 2 }

/-- Fixture: inventory holding lots A and B of SKU X, no reservations. -/
def stAB : WState := ⟨[recA, recB], []⟩

/-- Fixture: inventory holding only lot A of SKU X, no reservations. -/
def stA : WState := ⟨[recA], []⟩

/-- Fixture: a PENDING reservation of 4 units of SKU X drawn from lot A. -/
def resPend : Reservation :=
  { reserveId := "R1", sku := "X", quantity := 4, reservedBy := "u",
    reservationDate := 3, status := Status.pending,
    reservedLot := some "A", reservedLocation := some "L1" }

/-- Fixture: the same reservation already PICKED (terminal). -/
def resPick : Reservation := { resPend with status := Status.picked }

/-- Fixture: lot A plus the PENDING reservation. -/
def stPend : WState := ⟨[recA], [resPend]⟩

/-- Fixture: lot A plus the PICKED reservation. -/
def stPick : WState := ⟨[recA], [resPick]⟩

/-- Every update issued by setQty preserves each row's (sku, lot, location)
identity and its inbound_date: the UPDATE statement only writes quantity and
the audit columns. -/
theorem setQty_map_keyDate (inv : List InvRecord) (sku lot loc : String)
    (v : Int) (now : Nat) (user stamp : String) :
    (setQty inv sku lot loc v now user stamp).map (fun r => (invKey r, r.inboundDate))
      = inv.map (fun r => (invKey r, r.inboundDate)) := by
  unfold setQty
  rw [List.map_map]
  congr 1
  funext r
  by_cases h : invKeyB r sku lot loc <;> simp [h, invKey]

/-- Looking the updated key up after setQty returns the first matching row
with the new quantity and audit stamps. -/
theorem invKeyB_upd (r : InvRecord) (sku lot loc : String) (v : Int) (now : Nat)
    (user stamp : String) :
    invKeyB { r with quantity := v, lastUpdatedDate := now,
                     lastUpdatedBy := user, idStamp := stamp } sku lot loc
      = invKeyB r sku lot loc := rfl

theorem lookupRecord_setQty_self (sku lot loc : String) (v : Int) (now : Nat)
    (user stamp : String) (inv : List InvRecord) :
    lookupRecord (setQty inv sku lot loc v now user stamp) sku lot loc
      = (lookupRecord inv sku lot loc).map
          (fun r => { r with quantity := v, lastUpdatedDate := now,
                             lastUpdatedBy := user, idStamp := stamp }) := by
  induction inv with
  | nil => rfl
  | cons r rest ih =>
    simp only [setQty, List.map_cons, lookupRecord, List.find?_cons] at ih ⊢
    cases h : invKeyB r sku lot loc
    · simpa [h, invKeyB_upd] using ih
    · simp [h, invKeyB_upd]

/-- C4: an adjustment on an existing (sku, lot, location) record whose current
quantity Q plus the signed delta D would come out negative fails with the
negative-quantity error and leaves the whole state unchanged (no write is
issued), and an adjustment whose key does not exist fails with the
record-not-found error and creates no record. -/
theorem c4_adjust_guard (st : WState) (sku lot loc : String) (delta : Int)
    (now : Nat) (user stamp : String) :
    (∀ r, lookupRecord st.inventory sku lot loc = some r → r.quantity + delta < 0 →
      process_adjust_in_item st sku delta lot loc now user stamp
        = (st, some OpError.negativeQuantity)) ∧
    (lookupRecord st.inventory sku lot loc = none →
      process_adjust_in_item st sku delta lot loc now user stamp
        = (st, some OpError.recordNotFound)) := by
  constructor
  · intro r hr hneg
    simp [process_adjust_in_item, hr, hneg]
  · intro hr
    simp [process_adjust_in_item, hr]

/-- C4 witness: delta -9 against lot A (5 units) is rejected as negative and
delta 3 against the absent lot C is rejected as not found, both leaving the
fixture state untouched. -/
theorem c4_adjust_guard_witness :
    process_adjust_in_item stAB "X" (-9) "A" "L1" 7 "u" "T"
      = (stAB, some OpError.negativeQuantity) ∧
    process_adjust_in_item stAB "X" 3 "C" "L1" 7 "u" "T"
      = (stAB, some OpError.recordNotFound) :=
  ⟨(c4_adjust_guard stAB "X" "A" "L1" (-9) 7 "u" "T").1 recA (by decide) (by decide),
   (c4_adjust_guard stAB "X" "C" "L1" 3 7 "u" "T").2 (by decide)⟩

/-- C10: when an inbound or a return targets an existing (sku, lot, location)
record, the quantity grows by the given amount while every row keeps its key
and its inbound_date and no row is inserted (the caller-supplied date is used
only on the INSERT path), so FIFO order is unchanged; the return flow does
exactly the same update as the inbound flow on this path. -/
theorem c10_existing_key_keeps_inbound_date (st : WState) (sku : String)
    (qty : Int) (lot : String) (d : Nat) (loc : String) (now : Nat)
    (user stamp : String) (r : InvRecord) (hq : 0 < qty)
    (hr : lookupRecord st.inventory sku lot loc = some r) :
    ((process_inbound_item st sku qty lot d loc now user stamp).1.inventory.map
        (fun v => (invKey v, v.inboundDate))
      = st.inventory.map (fun v => (invKey v, v.inboundDate))) ∧
    lookupRecord (process_inbound_item st sku qty lot d loc now user stamp).1.inventory
        sku lot loc
      = some { r with quantity := r.quantity + qty, lastUpdatedDate := now,
                      lastUpdatedBy := user, idStamp := stamp } ∧
    (process_return_item st sku qty lot d loc now user stamp).1
      = (process_inbound_item st sku qty lot d loc now user stamp).1 := by
  have hq' : ¬ qty ≤ 0 := not_le.mpr hq
  have hinv : (process_inbound_item st sku qty lot d loc now user stamp).1.inventory
      = setQty st.inventory sku lot loc (r.quantity + qty) now user stamp := by
    simp [process_inbound_item, hq', hr]
  refine ⟨?_, ?_, ?_⟩
  · rw [hinv]
    exact setQty_map_keyDate st.inventory sku lot loc (r.quantity + qty) now user stamp
  · rw [hinv, lookupRecord_setQty_self, hr]
    rfl
  · simp [process_inbound_item, process_return_item, hq', hr]

/-- C10 witness: an inbound of 3 units onto existing lot A leaves its
inbound_date at day 1 and bumps the quantity to 8. -/
theorem c10_existing_key_keeps_inbound_date_witness :
    lookupRecord (process_inbound_item stAB "X" 3 "A" 9 "L1" 7 "u" "T").1.inventory
        "X" "A" "L1"
      = some { recA with quantity := recA.quantity + 3, lastUpdatedDate := 7,
                         lastUpdatedBy := "u", idStamp := "T" } :=
  (c10_existing_key_keeps_inbound_date stAB "X" 3 "A" 9 "L1" 7 "u" "T" recA
    (by decide) (by decide)).2.1

/-- C7 counterexample: against the matching PENDING reservation of 4 units a
pick of quantity 0 satisfies quantity less-or-equal reserved quantity, yet the
operation fails with the invalid-quantity error (non-positive quantities are
rejected before the reservation is consulted), so the success half of the
claim is false exactly as stated. -/
theorem c7_counterexample :
    (0 : Int) ≤ resPend.quantity ∧
    stPend.reservations.find? (pickPred "R1" "X" "A" "L1") = some resPend ∧
    process_reserve_pick stPend "X" 0 "L1" "A" "R1" 7 "u"
      = (stPend, some OpError.invalidQuantity) :=
  ⟨by decide, by decide, by decide⟩

/-- C7 amended: the inventory ledger is unchanged by every pick, and for a
positive quantity against the matching PENDING reservation the dichotomy
holds: an over-pick fails with the over-pick error changing nothing, and a
quantity within the reservation succeeds and stamps PICKED metadata on the
reservation rows carrying the id. -/
theorem c7_pick_dichotomy (st : WState) (sku : String) (qty : Int)
    (loc lot rid : String) (now : Nat) (user : String) :
    (process_reserve_pick st sku qty loc lot rid now user).1.inventory
      = st.inventory ∧
    (∀ rv, st.reservations.find? (pickPred rid sku lot loc) = some rv → 0 < qty →
      (rv.quantity < qty →
        process_reserve_pick st sku qty loc lot rid now user
          = (st, some OpError.overPick)) ∧
      (qty ≤ rv.quantity →
        process_reserve_pick st sku qty loc lot rid now user
          = ({ st with reservations := st.reservations.map (pickUpd rid now user) },
              none) ∧
        ∀ v ∈ (process_reserve_pick st sku qty loc lot rid now user).1.reservations,
          v.reserveId = rid →
            v.status = Status.picked ∧ v.pickupDate = some now ∧
              v.pickedBy = some user)) := by
  constructor
  · by_cases h0 : qty ≤ 0
    · simp [process_reserve_pick, h0]
    · cases hf : st.reservations.find? (pickPred rid sku lot loc) with
      | none => simp [process_reserve_pick, h0, hf]
      | some rv =>
        by_cases h1 : rv.quantity < qty <;>
          simp [process_reserve_pick, h0, hf, h1]
  · intro rv hf hq
    have h0 : ¬ qty ≤ 0 := not_le.mpr hq
    constructor
    · intro hover
      simp [process_reserve_pick, h0, hf, hover]
    · intro hle
      have h1 : ¬ rv.quantity < qty := not_lt.mpr hle
      have hres : process_reserve_pick st sku qty loc lot rid now user
          = ({ st with reservations := st.reservations.map (pickUpd rid now user) },
              none) := by
        simp [process_reserve_pick, h0, hf, h1]
      refine ⟨hres, ?_⟩
      intro v hv hvid
      rw [hres] at hv
      simp only [List.mem_map] at hv
      obtain ⟨w, _, rfl⟩ := hv
      by_cases hwid : w.reserveId = rid
      · simp [pickUpd, hwid]
      · simp only [pickUpd, if_neg hwid] at hvid
        exact absurd hvid hwid

/-- C7 witness: picking 2 of the 4 reserved units succeeds and stamps the
PICKED metadata. -/
theorem c7_pick_dichotomy_witness :
    process_reserve_pick stPend "X" 2 "L1" "A" "R1" 7 "u"
      = ({ stPend with reservations := stPend.reservations.map (pickUpd "R1" 7 "u") },
          none) :=
  (((c7_pick_dichotomy stPend "X" 2 "L1" "A" "R1" 7 "u").2 resPend (by decide)
      (by decide)).2 (by decide)).1

/-- C5 counterexample: reserve_return matches the PICKED (terminal)
reservation R1 and sets its status to RETURNED, so a terminal status does
change again, refuting the no-further-transition invariant as stated. -/
theorem c5_counterexample :
    stPick.reservations.map (fun v => v.status) = [Status.picked] ∧
    (process_reserve_return stPick "X" 2 "L1" "A" "R1" "why" 7 "u" "T").1.reservations.map
        (fun v => v.status)
      = [Status.returned] :=
  ⟨by decide, by decide⟩

/-- C5 amended: with unique reservation ids, Pick and Cancel never change the
row of a reservation that is not PENDING (so the PENDING-to-terminal
discipline holds for them), while Return sets the status of every row carrying
the id to RETURNED unconditionally, terminal or not. -/
theorem c5_transitions (st : WState) (sku : String) (qty : Int)
    (loc lot rid reason : String) (now : Nat) (user stamp : String)
    (hU : (st.reservations.map (fun v => v.reserveId)).Nodup)
    (i : Nat) (v : Reservation) (hv : st.reservations[i]? = some v) :
    (v.status ≠ Status.pending →
      (process_reserve_pick st sku qty loc lot rid now user).1.reservations[i]?
          = some v ∧
      (process_reserve_cancel st rid reason now user stamp).1.reservations[i]?
          = some v) ∧
    ((process_reserve_return st sku qty loc lot rid reason now user stamp).2 = none →
      v.reserveId = rid →
      (process_reserve_return st sku qty loc lot rid reason now user stamp).1.reservations[i]?
        = some { v with status := Status.returned, returnDate := some now,
                        returnedBy := some user, returnReason := some reason }) := by
  have hvmem : v ∈ st.reservations := by
    have := List.getElem?_eq_some.mp hv
    obtain ⟨h, rfl⟩ := this
    exact List.getElem_mem h
  constructor
  · intro hvterm
    constructor
    · by_cases h0 : qty ≤ 0
      · simp [process_reserve_pick, h0, hv]
      · cases hf : st.reservations.find? (pickPred rid sku lot loc) with
        | none => simp [process_reserve_pick, h0, hf, hv]
        | some rv =>
          by_cases h1 : rv.quantity < qty
          · simp [process_reserve_pick, h0, hf, h1, hv]
          · have hrvmem := List.mem_of_find?_eq_some hf
            have hrvp := List.find?_some hf
            simp only [pickPred, decide_eq_true_eq] at hrvp
            have hvid : ¬ v.reserveId = rid := by
              intro hid
              have hveq : v = rv :=
                List.inj_on_of_nodup_map hU hvmem hrvmem (by rw [hid, hrvp.1])
              exact hvterm (by rw [hveq]; exact hrvp.2.2.2.2)
            simp [process_reserve_pick, h0, hf, h1, List.getElem?_map, hv,
              pickUpd, hvid]
    · cases hf : st.reservations.find? (cancelPred rid) with
      | none => simp [process_reserve_cancel, hf, hv]
      | some rv =>
        have hrvmem := List.mem_of_find?_eq_some hf
        have hrvp := List.find?_some hf
        simp only [cancelPred, decide_eq_true_eq] at hrvp
        have hvid : ¬ v.reserveId = rid := by
          intro hid
          have hveq : v = rv :=
            List.inj_on_of_nodup_map hU hvmem hrvmem (by rw [hid, hrvp.1])
          exact hvterm (by rw [hveq]; exact hrvp.2)
        simp [process_reserve_cancel, hf, List.getElem?_map, hv, cancelUpd, hvid]
  · intro hok hvid
    by_cases h0 : qty ≤ 0
    · simp [process_reserve_return, h0] at hok
    · cases hf : st.reservations.find? (returnPred rid sku lot loc) with
      | none => simp [process_reserve_return, h0, hf] at hok
      | some rv =>
        simp [process_reserve_return, h0, hf, List.getElem?_map, hv,
          returnUpd, hvid]

/-- C5 witness: against the PICKED reservation, pick and cancel leave the row
untouched. -/
theorem c5_transitions_witness :
    (process_reserve_pick stPick "X" 2 "L1" "A" "R1" 7 "u").1.reservations[0]?
      = some resPick ∧
    (process_reserve_cancel stPick "R1" "why" 7 "u" "T").1.reservations[0]?
      = some resPick :=
  (c5_transitions stPick "X" 2 "L1" "A" "R1" "why" 7 "u" "T" (by decide) 0 resPick
    (by decide)).1 (by decide)

/-- C1: at a concrete insufficient-stock input (5 units available, 9
requested) the reserve flow records the insufficient-stock failure, yet still
deducts all available stock from lot A and inserts a PENDING reservation over
the full 9 units: the claimed fail-without-mutation behaviour does not hold in
the code (the error branch falls through to the deduction loop and the
INSERT). -/
theorem c1_reserve_insufficient_still_mutates :
    (process_reserve_item stA "X" 9 "R9" 7 "u" "T").2
        = some OpError.insufficientStock ∧
    sumSku stA.inventory "X" = 5 ∧
    sumSku (process_reserve_item stA "X" 9 "R9" 7 "u" "T").1.inventory "X" = 0 ∧
    (process_reserve_item stA "X" 9 "R9" 7 "u" "T").1.reservations.map
        (fun v => (v.reserveId, v.sku, v.quantity, v.status))
      = [("R9", "X", 9, Status.pending)] :=
  ⟨by decide, by decide, by decide, by decide⟩

/-- The check flow is read-only and SELECTs exactly the PENDING reservations
of the optional SKU filter, ordered by reservation_date ascending. -/
theorem reserve_ck_returns_pending_sorted (st : WState) (skuFilter : Option String) :
    (process_reserve_ck st skuFilter).1 = st ∧
    (∀ rv, rv ∈ (process_reserve_ck st skuFilter).2 ↔
      rv ∈ st.reservations ∧ rv.status = Status.pending ∧
        ∀ s, skuFilter = some s → rv.sku = s) ∧
    List.Sorted resDateLe (process_reserve_ck st skuFilter).2 := by
  have hck : ∀ rv, ckFilter skuFilter rv = true ↔
      (rv.status = Status.pending ∧ ∀ s, skuFilter = some s → rv.sku = s) := by
    intro rv
    cases skuFilter with
    | none => simp [ckFilter]
    | some s =>
      simp only [ckFilter, Bool.and_eq_true, decide_eq_true_eq, Option.some.injEq]
      constructor
      · rintro ⟨hp, hs⟩
        exact ⟨hp, fun s' h => h ▸ hs⟩
      · rintro ⟨hp, hall⟩
        exact ⟨hp, hall s rfl⟩
  refine ⟨rfl, ?_, ?_⟩
  · intro rv
    have hperm := List.perm_insertionSort resDateLe
      (st.reservations.filter (ckFilter skuFilter))
    have h2 : (process_reserve_ck st skuFilter).2
        = List.insertionSort resDateLe (st.reservations.filter (ckFilter skuFilter)) := rfl
    rw [h2, hperm.mem_iff, List.mem_filter, hck]
  · have hs := List.sorted_insertionSort resDateLe
      (st.reservations.filter (ckFilter skuFilter))
    exact hs.imp (fun h => h)

/-- C9: the reserve_CK handler reaches the read-only check only without a
filter; any supplied SKU filter hits the unbound local name args and the
command dies with NameError instead of returning the filtered PENDING list,
evaluated here at a concrete filtered call (and at the working unfiltered
call). -/
theorem c9_reserve_ck_filter_name_error :
    handle_reserve_ck_command stPend ["X"] = (stPend, Except.error OpError.nameError) ∧
    handle_reserve_ck_command stPend [] = (stPend, Except.ok [resPend]) :=
  ⟨rfl, rfl⟩

/-- A deduction walk over a non-positive remainder takes nothing. -/
theorem alloc_nil_of_nonpos (l : List InvRecord) {rem : Int} (h : rem ≤ 0) :
    allocDeductions rem l = [] := by
  cases l <;> simp [allocDeductions, h]

/-- The i-th deduction of a walk is drawn from the i-th row of the snapshot. -/
theorem alloc_fst_getElem (l : List InvRecord) : ∀ (rem : Int) (i : Nat)
    (d : InvRecord × Int), (allocDeductions rem l)[i]? = some d → l[i]? = some d.1 := by
  induction l with
  | nil =>
    intro rem i d h
    simp [allocDeductions] at h
  | cons r rest ih =>
    intro rem i d h
    by_cases h0 : rem ≤ 0
    · simp [allocDeductions, h0] at h
    · simp only [allocDeductions, if_neg h0] at h
      cases i with
      | zero =>
        simp only [List.getElem?_cons_zero, Option.some.injEq] at h ⊢
        rw [← h]
      | succ n =>
        simp only [List.getElem?_cons_succ] at h ⊢
        exact ih _ n d h

/-- Every deduction of a walk that is followed by another deduction takes the
full quantity of its row: the walk only stops short on the last touched row. -/
theorem alloc_take_full (l : List InvRecord) : ∀ (rem : Int) (i : Nat)
    (d d' : InvRecord × Int), (allocDeductions rem l)[i]? = some d →
    (allocDeductions rem l)[i + 1]? = some d' → d.2 = d.1.quantity := by
  induction l with
  | nil =>
    intro rem i d d' h _
    simp [allocDeductions] at h
  | cons r rest ih =>
    intro rem i d d' h h'
    by_cases h0 : rem ≤ 0
    · simp [allocDeductions, h0] at h
    · simp only [allocDeductions, if_neg h0] at h h'
      cases i with
      | zero =>
        simp only [List.getElem?_cons_zero, Option.some.injEq] at h
        simp only [List.getElem?_cons_succ] at h'
        have hne : ¬ (rem - min rem r.quantity ≤ 0) := by
          intro hle
          rw [alloc_nil_of_nonpos rest hle] at h'
          simp at h'
        have hmin : min rem r.quantity = r.quantity := by
          rcases le_total rem r.quantity with hc | hc
          · rw [min_eq_left hc] at hne
            omega
          · exact min_eq_right hc
        rw [← h]
        simp [hmin]
      | succ n =>
        simp only [List.getElem?_cons_succ] at h h'
        exact ih _ n d d' h h'

/-- C2: the allocation walk used by both outbound and reservation is strictly
FIFO: over the date-ordered available snapshot of an SKU, whenever the walk
takes a positive amount from a strictly newer-dated row, the deduction it
recorded for any strictly older-dated row is that row's full quantity. -/
theorem c2_alloc_fifo (inv : List InvRecord) (sku : String) (qty : Int)
    (i j : Nat) (ri rj : InvRecord) (dj : InvRecord × Int)
    (hi : (listAvailable inv sku)[i]? = some ri)
    (hj : (listAvailable inv sku)[j]? = some rj)
    (hdate : ri.inboundDate < rj.inboundDate)
    (_htotal : qty ≤ availTotal (listAvailable inv sku))
    (hdj : (allocDeductions qty (listAvailable inv sku))[j]? = some dj)
    (_hpos : 0 < dj.2) :
    (allocDeductions qty (listAvailable inv sku))[i]? = some (ri, ri.quantity) := by
  have hsorted : List.Sorted dateLe (listAvailable inv sku) :=
    List.sorted_insertionSort dateLe _
  have hpair := List.pairwise_iff_getElem.mp hsorted
  obtain ⟨hilen, hie⟩ := List.getElem?_eq_some.mp hi
  obtain ⟨hjlen, hje⟩ := List.getElem?_eq_some.mp hj
  have hij : i < j := by
    rcases Nat.lt_trichotomy i j with h | h | h
    · exact h
    · exfalso
      subst h
      have : ri = rj := by rw [← hie, ← hje]
      rw [this] at hdate
      exact lt_irrefl _ hdate
    · exfalso
      have hd := hpair j i hjlen hilen h
      rw [hie, hje] at hd
      simp only [dateLe] at hd
      omega
  have hjalen : j < (allocDeductions qty (listAvailable inv sku)).length :=
    (List.getElem?_eq_some.mp hdj).1
  have hi1 : i + 1 < (allocDeductions qty (listAvailable inv sku)).length :=
    lt_of_le_of_lt (Nat.succ_le_of_lt hij) hjalen
  have hilen2 : i < (allocDeductions qty (listAvailable inv sku)).length :=
    Nat.lt_of_succ_lt hi1
  have hdi := List.getElem?_eq_getElem hilen2
  have hdi1 := List.getElem?_eq_getElem hi1
  have hfull := alloc_take_full (listAvailable inv sku) qty i _ _ hdi hdi1
  have hfst := alloc_fst_getElem (listAvailable inv sku) qty i _ hdi
  rw [hi, Option.some.injEq] at hfst
  rw [hdi, Option.some.injEq]
  exact Prod.ext hfst.symm (by rw [hfull, ← hfst])

/-- C2 witness: with lot A (day 1, 5 units) older than lot B (day 2, 10
units) and 8 requested of the 15 available, the walk takes something from B,
and indeed recorded the full 5 units of A first. -/
theorem c2_alloc_fifo_witness :
    (allocDeductions 8 (listAvailable stAB.inventory "X"))[0]?
      = some (recA, recA.quantity) :=
  c2_alloc_fifo stAB.inventory "X" 8 0 1 recA recB (recB, 3) (by decide) (by decide)
    (by decide) (by decide) (by decide) (by decide)

/-- A list of rows with non-negative quantities has a non-negative total. -/
theorem availTotal_nonneg (l : List InvRecord) (h : ∀ r ∈ l, 0 ≤ r.quantity) :
    0 ≤ availTotal l := by
  induction l with
  | nil => simp [availTotal]
  | cons r rest ih =>
    have h1 := h r (List.mem_cons_self r rest)
    have h2 := ih (fun x hx => h x (List.mem_cons_of_mem r hx))
    simp only [availTotal, List.map_cons, List.sum_cons] at h2 ⊢
    omega

/-- The deductions of a walk never sum to more than the requested quantity. -/
theorem alloc_total_le (l : List InvRecord) : ∀ rem : Int, 0 ≤ rem →
    dedTotal (allocDeductions rem l) ≤ rem := by
  induction l with
  | nil =>
    intro rem h
    simpa [allocDeductions, dedTotal] using h
  | cons r rest ih =>
    intro rem h
    by_cases h0 : rem ≤ 0
    · simpa [allocDeductions, h0, dedTotal] using h
    · simp only [allocDeductions, if_neg h0, dedTotal, List.map_cons, List.sum_cons]
      have hmin : min rem r.quantity ≤ rem := min_le_left _ _
      have hrec := ih (rem - min rem r.quantity) (by omega)
      simp only [dedTotal] at hrec
      omega

/-- When the snapshot rows are non-negative and cover the request, the walk's
deductions sum to exactly the requested quantity. -/
theorem alloc_total_eq (l : List InvRecord) : ∀ rem : Int,
    (∀ r ∈ l, 0 ≤ r.quantity) → 0 ≤ rem → rem ≤ availTotal l →
    dedTotal (allocDeductions rem l) = rem := by
  induction l with
  | nil =>
    intro rem _ h0 hle
    simp only [availTotal, List.map_nil, List.sum_nil] at hle
    have : rem = 0 := le_antisymm hle h0
    simp [allocDeductions, dedTotal, this]
  | cons r rest ih =>
    intro rem hpos h0 hle
    by_cases hr0 : rem ≤ 0
    · have : rem = 0 := le_antisymm hr0 h0
      simp [allocDeductions, hr0, dedTotal, this]
    · simp only [allocDeductions, if_neg hr0, dedTotal, List.map_cons, List.sum_cons]
      have hrest : ∀ x ∈ rest, 0 ≤ x.quantity :=
        fun x hx => hpos x (List.mem_cons_of_mem r hx)
      have havail : availTotal (r :: rest) = r.quantity + availTotal rest := by
        simp [availTotal]
      have hmin2 : rem - min rem r.quantity ≤ availTotal rest := by
        rcases le_total rem r.quantity with hc | hc
        · rw [min_eq_left hc]
          have := availTotal_nonneg rest hrest
          omega
        · rw [min_eq_right hc]
          rw [havail] at hle
          omega
      have hminle : min rem r.quantity ≤ rem := min_le_left _ _
      have hrec := ih (rem - min rem r.quantity) hrest (by omega) hmin2
      simp only [dedTotal] at hrec
      omega

/-- Every row of the available snapshot belongs to the inventory, carries the
requested SKU and has a positive quantity. -/
theorem mem_listAvailable (inv : List InvRecord) (sku : String) (r : InvRecord)
    (h : r ∈ listAvailable inv sku) : r ∈ inv ∧ r.sku = sku ∧ 0 < r.quantity := by
  have hperm := List.perm_insertionSort dateLe
    (inv.filter fun v => decide (v.sku = sku ∧ 0 < v.quantity))
  have h2 : r ∈ inv.filter fun v => decide (v.sku = sku ∧ 0 < v.quantity) :=
    hperm.mem_iff.mp h
  rw [List.mem_filter, decide_eq_true_eq] at h2
  exact ⟨h2.1, h2.2.1, h2.2.2⟩

/-- C3: for a positive requested quantity the allocation walk's deductions
never sum to more than the request, and they sum to exactly the request
whenever the available total covers it (the case in which neither outbound nor
reservation reports insufficient stock). -/
theorem c3_alloc_totals (inv : List InvRecord) (sku : String) (qty : Int)
    (h : 0 < qty) :
    dedTotal (allocDeductions qty (listAvailable inv sku)) ≤ qty ∧
    (qty ≤ availTotal (listAvailable inv sku) →
      dedTotal (allocDeductions qty (listAvailable inv sku)) = qty) := by
  constructor
  · exact alloc_total_le (listAvailable inv sku) qty (le_of_lt h)
  · intro hcov
    exact alloc_total_eq (listAvailable inv sku) qty
      (fun r hr => le_of_lt (mem_listAvailable inv sku r hr).2.2) (le_of_lt h) hcov

/-- C3 witness: requesting 8 of the 15 available units yields deductions
summing to exactly 8. -/
theorem c3_alloc_totals_witness :
    dedTotal (allocDeductions 8 (listAvailable stAB.inventory "X")) = 8 :=
  (c3_alloc_totals stAB.inventory "X" 8 (by decide)).2 (by decide)

/-- Unfolding equation: setQty on a cons. -/
theorem setQty_cons (r : InvRecord) (rest : List InvRecord) (sku lot loc : String)
    (v : Int) (now : Nat) (user stamp : String) :
    setQty (r :: rest) sku lot loc v now user stamp
      = (if invKeyB r sku lot loc then
          { r with quantity := v, lastUpdatedDate := now,
                   lastUpdatedBy := user, idStamp := stamp }
         else r) :: setQty rest sku lot loc v now user stamp := rfl

/-- Unfolding equation: addQty on a cons. -/
theorem addQty_cons (r : InvRecord) (rest : List InvRecord) (sku lot loc : String)
    (delta : Int) (now : Nat) (user stamp : String) :
    addQty (r :: rest) sku lot loc delta now user stamp
      = (if invKeyB r sku lot loc then
          { r with quantity := r.quantity + delta, lastUpdatedDate := now,
                   lastUpdatedBy := user, idStamp := stamp }
         else r) :: addQty rest sku lot loc delta now user stamp := rfl

/-- setQty is the identity when no row matches the key. -/
theorem setQty_of_no_match (sku lot loc : String) (v : Int) (now : Nat)
    (user stamp : String) : ∀ inv : List InvRecord,
    (∀ x ∈ inv, ¬ invKeyB x sku lot loc = true) →
    setQty inv sku lot loc v now user stamp = inv := by
  intro inv
  induction inv with
  | nil => intro _; rfl
  | cons r rest ih =>
    intro h
    rw [setQty_cons, if_neg (h r (List.mem_cons_self r rest)),
      ih (fun x hx => h x (List.mem_cons_of_mem r hx))]

/-- addQty is the identity when no row matches the key. -/
theorem addQty_of_no_match (sku lot loc : String) (delta : Int) (now : Nat)
    (user stamp : String) : ∀ inv : List InvRecord,
    (∀ x ∈ inv, ¬ invKeyB x sku lot loc = true) →
    addQty inv sku lot loc delta now user stamp = inv := by
  intro inv
  induction inv with
  | nil => intro _; rfl
  | cons r rest ih =>
    intro h
    rw [addQty_cons, if_neg (h r (List.mem_cons_self r rest)),
      ih (fun x hx => h x (List.mem_cons_of_mem r hx))]

/-- setQty on a uniquely-keyed row replaces exactly that row's quantity in the
per-SKU total. -/
theorem sumSku_setQty (sku lot loc : String) (v : Int) (now : Nat)
    (user stamp : String) : ∀ (inv : List InvRecord) (r : InvRecord),
    inv.filter (fun x => invKeyB x sku lot loc) = [r] →
    sumSku (setQty inv sku lot loc v now user stamp) sku
      = sumSku inv sku - r.quantity + v := by
  intro inv
  induction inv with
  | nil => intro r h; simp at h
  | cons r0 rest ih =>
    intro r h
    by_cases h0 : invKeyB r0 sku lot loc
    · rw [List.filter_cons, if_pos h0] at h
      injection h with h1 h2
      subst h1
      have hrest : setQty rest sku lot loc v now user stamp = rest :=
        setQty_of_no_match sku lot loc v now user stamp rest
          (List.filter_eq_nil_iff.mp h2)
      have hsku : r0.sku = sku := by
        simp only [invKeyB, decide_eq_true_eq] at h0
        exact h0.1
      rw [setQty_cons, if_pos h0, hrest]
      simp only [sumSku]
      rw [if_pos hsku, if_pos hsku]
      omega
    · rw [List.filter_cons, if_neg h0] at h
      rw [setQty_cons, if_neg h0]
      simp only [sumSku]
      rw [ih r h]
      omega

/-- addQty on a uniquely-keyed row adds exactly its delta to the per-SKU
total. -/
theorem sumSku_addQty (sku lot loc : String) (delta : Int) (now : Nat)
    (user stamp : String) : ∀ inv : List InvRecord,
    countKey inv sku lot loc = 1 →
    sumSku (addQty inv sku lot loc delta now user stamp) sku
      = sumSku inv sku + delta := by
  intro inv
  induction inv with
  | nil => intro h; simp [countKey] at h
  | cons r0 rest ih =>
    intro h
    by_cases h0 : invKeyB r0 sku lot loc
    · have h2 : rest.filter (fun x => invKeyB x sku lot loc) = [] := by
        simp only [countKey, List.filter_cons, if_pos h0, List.length_cons] at h
        exact List.length_eq_zero.mp (by omega)
      have hrest : addQty rest sku lot loc delta now user stamp = rest :=
        addQty_of_no_match sku lot loc delta now user stamp rest
          (List.filter_eq_nil_iff.mp h2)
      have hsku : r0.sku = sku := by
        simp only [invKeyB, decide_eq_true_eq] at h0
        exact h0.1
      rw [addQty_cons, if_pos h0, hrest]
      simp only [sumSku]
      rw [if_pos hsku, if_pos hsku]
      omega
    · have h' : countKey rest sku lot loc = 1 := by
        simp only [countKey, List.filter_cons, if_neg h0] at h ⊢
        exact h
      rw [addQty_cons, if_neg h0]
      simp only [sumSku]
      rw [ih h']
      omega

/-- addQty on a uniquely-keyed row adds exactly its delta to the at-key
total. -/
theorem sumAt_addQty_self (sku lot loc : String) (delta : Int) (now : Nat)
    (user stamp : String) : ∀ inv : List InvRecord,
    countKey inv sku lot loc = 1 →
    sumAt (addQty inv sku lot loc delta now user stamp) sku lot loc
      = sumAt inv sku lot loc + delta := by
  intro inv
  induction inv with
  | nil => intro h; simp [countKey] at h
  | cons r0 rest ih =>
    intro h
    by_cases h0 : invKeyB r0 sku lot loc
    · have h2 : rest.filter (fun x => invKeyB x sku lot loc) = [] := by
        simp only [countKey, List.filter_cons, if_pos h0, List.length_cons] at h
        exact List.length_eq_zero.mp (by omega)
      have hrest : addQty rest sku lot loc delta now user stamp = rest :=
        addQty_of_no_match sku lot loc delta now user stamp rest
          (List.filter_eq_nil_iff.mp h2)
      rw [addQty_cons, if_pos h0, hrest]
      simp only [sumAt]
      rw [if_pos (invKeyB_upd r0 sku lot loc (r0.quantity + delta) now user stamp ▸ h0),
        if_pos h0]
      omega
    · have h' : countKey rest sku lot loc = 1 := by
        simp only [countKey, List.filter_cons, if_neg h0] at h ⊢
        exact h
      rw [addQty_cons, if_neg h0]
      simp only [sumAt]
      rw [ih h']
      omega

/-- setQty on one key leaves the filtered view of any other key unchanged. -/
theorem filterKey_setQty_other (sku2 lot2 loc2 sku lot loc : String) (v : Int)
    (now : Nat) (user stamp : String)
    (hne : ¬ (sku2 = sku ∧ lot2 = lot ∧ loc2 = loc)) :
    ∀ inv : List InvRecord,
    (setQty inv sku2 lot2 loc2 v now user stamp).filter
        (fun x => invKeyB x sku lot loc)
      = inv.filter (fun x => invKeyB x sku lot loc) := by
  intro inv
  induction inv with
  | nil => rfl
  | cons r0 rest ih =>
    rw [setQty_cons]
    by_cases h2 : invKeyB r0 sku2 lot2 loc2
    · rw [if_pos h2]
      have hno : invKeyB r0 sku lot loc = false := by
        by_contra hcon
        rw [Bool.not_eq_false] at hcon
        simp only [invKeyB, decide_eq_true_eq] at h2 hcon
        exact hne ⟨h2.1.symm.trans hcon.1, h2.2.1.symm.trans hcon.2.1,
          h2.2.2.symm.trans hcon.2.2⟩
      rw [List.filter_cons, invKeyB_upd, if_neg (by rw [hno]; exact Bool.false_ne_true),
        List.filter_cons, if_neg (by rw [hno]; exact Bool.false_ne_true)]
      exact ih
    · rw [if_neg h2]
      by_cases hp : invKeyB r0 sku lot loc
      · rw [List.filter_cons, if_pos hp, List.filter_cons, if_pos hp, ih]
      · rw [List.filter_cons, if_neg hp, List.filter_cons, if_neg hp]
        exact ih

/-- setQty never changes any row's key, so per-key row counts are invariant. -/
theorem countKey_setQty (sku2 lot2 loc2 : String) (v : Int) (now : Nat)
    (user stamp : String) (inv : List InvRecord) (sku lot loc : String) :
    countKey (setQty inv sku2 lot2 loc2 v now user stamp) sku lot loc
      = countKey inv sku lot loc := by
  unfold countKey setQty
  rw [← List.countP_eq_length_filter, ← List.countP_eq_length_filter,
    List.countP_map]
  congr 1
  funext x
  by_cases h : invKeyB x sku2 lot2 loc2 <;> simp [h, Function.comp, invKeyB_upd]

/-- Applying any deduction list keeps every per-key row count. -/
theorem countKey_applyDeductions (sku : String) (now : Nat) (user stamp : String)
    (sku1 lot1 loc1 : String) : ∀ (deds : List (InvRecord × Int))
    (inv : List InvRecord),
    countKey (applyDeductions inv sku now user stamp deds) sku1 lot1 loc1
      = countKey inv sku1 lot1 loc1 := by
  intro deds
  induction deds with
  | nil => intro inv; rfl
  | cons d rest ih =>
    intro inv
    obtain ⟨r, t⟩ := d
    rw [show applyDeductions inv sku now user stamp ((r, t) :: rest)
        = applyDeductions
            (setQty inv sku r.lot r.location (r.quantity - t) now user stamp)
            sku now user stamp rest from rfl]
    rw [ih, countKey_setQty]

/-- In a well-keyed table the filtered view of a member row's key is exactly
that row. -/
theorem filterKey_eq_of_nodup : ∀ inv : List InvRecord, KeyNodup inv →
    ∀ r ∈ inv, inv.filter (fun x => invKeyB x r.sku r.lot r.location) = [r] := by
  intro inv
  induction inv with
  | nil =>
    intro _ r hr
    simp at hr
  | cons r0 rest ih =>
    intro hnd r hr
    have hnd2 : (invKey r0 ∉ rest.map invKey) ∧ KeyNodup rest := by
      simpa [KeyNodup, List.nodup_cons] using hnd
    rcases List.mem_cons.mp hr with heq | hmem
    · subst heq
      have hnil : rest.filter (fun x => invKeyB x r.sku r.lot r.location) = [] := by
        rw [List.filter_eq_nil_iff]
        intro x hx hpx
        apply hnd2.1
        have hxk : invKey x = invKey r := by
          simp only [invKeyB, decide_eq_true_eq] at hpx
          simp [invKey, hpx.1, hpx.2.1, hpx.2.2]
        rw [← hxk]
        exact List.mem_map_of_mem invKey hx
      rw [List.filter_cons, if_pos (by simp [invKeyB]), hnil]
    · have hhead : invKeyB r0 r.sku r.lot r.location = false := by
        by_contra hcon
        rw [Bool.not_eq_false] at hcon
        apply hnd2.1
        have hk : invKey r0 = invKey r := by
          simp only [invKeyB, decide_eq_true_eq] at hcon
          simp [invKey, hcon.1, hcon.2.1, hcon.2.2]
        rw [hk]
        exact List.mem_map_of_mem invKey hmem
      rw [List.filter_cons, if_neg (by rw [hhead]; exact Bool.false_ne_true)]
      exact ih hnd2.2 r hmem

/-- Every deduction is drawn from a row of the snapshot. -/
theorem alloc_fst_mem : ∀ (l : List InvRecord) (rem : Int) (d : InvRecord × Int),
    d ∈ allocDeductions rem l → d.1 ∈ l := by
  intro l
  induction l with
  | nil =>
    intro rem d h
    simp [allocDeductions] at h
  | cons r rest ih =>
    intro rem d h
    by_cases h0 : rem ≤ 0
    · simp [allocDeductions, h0] at h
    · simp only [allocDeductions, if_neg h0, List.mem_cons] at h
      rcases h with h | h
      · subst h
        exact List.mem_cons_self r rest
      · exact List.mem_cons_of_mem r (ih _ d h)

/-- The rows touched by a walk form a sublist (in order) of the snapshot. -/
theorem alloc_fst_sublist : ∀ (l : List InvRecord) (rem : Int),
    ((allocDeductions rem l).map (fun d => d.1)).Sublist l := by
  intro l
  induction l with
  | nil =>
    intro rem
    simp [allocDeductions]
  | cons r rest ih =>
    intro rem
    by_cases h0 : rem ≤ 0
    · simp [allocDeductions, h0]
    · simp only [allocDeductions, if_neg h0, List.map_cons]
      exact List.Sublist.cons₂ r (ih _)

/-- The available snapshot of a well-keyed table is itself well-keyed. -/
theorem keyNodup_listAvailable (inv : List InvRecord) (sku : String)
    (h : KeyNodup inv) : ((listAvailable inv sku).map invKey).Nodup := by
  have hperm := List.perm_insertionSort dateLe
    (inv.filter fun r => decide (r.sku = sku ∧ 0 < r.quantity))
  have hsub : ((inv.filter fun r => decide (r.sku = sku ∧ 0 < r.quantity)).map
      invKey).Nodup :=
    List.Nodup.sublist ((List.filter_sublist inv).map invKey) h
  exact ((hperm.map invKey).nodup_iff).mpr hsub

/-- Unfolding equation: dedTotal on a cons. -/
theorem dedTotal_cons (d : InvRecord × Int) (rest : List (InvRecord × Int)) :
    dedTotal (d :: rest) = d.2 + dedTotal rest := by
  simp [dedTotal]

/-- Applying a deduction list whose rows are uniquely keyed snapshots of the
table subtracts exactly the taken total from the SKU's sum. -/
theorem sumSku_applyDeductions (sku : String) (now : Nat) (user stamp : String) :
    ∀ (deds : List (InvRecord × Int)) (inv : List InvRecord),
    (∀ d ∈ deds, d.1.sku = sku ∧
      inv.filter (fun x => invKeyB x sku d.1.lot d.1.location) = [d.1]) →
    List.Pairwise (fun a b => invKey a.1 ≠ invKey b.1) deds →
    sumSku (applyDeductions inv sku now user stamp deds) sku
      = sumSku inv sku - dedTotal deds := by
  intro deds
  induction deds with
  | nil =>
    intro inv _ _
    simp [applyDeductions, dedTotal]
  | cons d rest ih =>
    intro inv hh hp
    obtain ⟨r, t⟩ := d
    have hd := hh (r, t) (List.mem_cons_self _ _)
    have hp' := List.pairwise_cons.mp hp
    rw [show applyDeductions inv sku now user stamp ((r, t) :: rest)
        = applyDeductions
            (setQty inv sku r.lot r.location (r.quantity - t) now user stamp)
            sku now user stamp rest from rfl]
    have hh' : ∀ e ∈ rest, e.1.sku = sku ∧
        (setQty inv sku r.lot r.location (r.quantity - t) now user stamp).filter
          (fun x => invKeyB x sku e.1.lot e.1.location) = [e.1] := by
      intro e he
      have hee := hh e (List.mem_cons_of_mem _ he)
      refine ⟨hee.1, ?_⟩
      rw [filterKey_setQty_other sku r.lot r.location sku e.1.lot e.1.location
        (r.quantity - t) now user stamp ?_ inv]
      · exact hee.2
      · intro hcon
        apply hp'.1 e he
        have hr1 : r.sku = sku := hd.1
        simp [invKey, hcon.2.1, hcon.2.2, hee.1, hr1]
    have hsum := sumSku_setQty sku r.lot r.location (r.quantity - t) now user stamp
      inv r hd.2
    rw [ih _ hh' hp'.2, hsum, dedTotal_cons]
    omega

/-- C6: cancel succeeds only from PENDING: when no PENDING reservation carries
the id (wrong status or absent), the operation fails with the
reservation-not-found error and the state is untouched; when a PENDING match
is found whose stored lot/location key exists exactly once in the ledger, it
reinstates the full reserved quantity at that key and marks every row carrying
the id CANCELLED. -/
theorem c6_cancel_pending_only (st : WState) (rid reason : String) (now : Nat)
    (user stamp : String) :
    ((∀ v ∈ st.reservations, v.reserveId = rid → v.status ≠ Status.pending) →
      process_reserve_cancel st rid reason now user stamp
        = (st, some OpError.reservationNotFound)) ∧
    (∀ rv lot loc, st.reservations.find? (cancelPred rid) = some rv →
      rv.reservedLot = some lot → rv.reservedLocation = some loc →
      countKey st.inventory rv.sku lot loc = 1 →
      (process_reserve_cancel st rid reason now user stamp).2 = none ∧
      sumAt (process_reserve_cancel st rid reason now user stamp).1.inventory
          rv.sku lot loc
        = sumAt st.inventory rv.sku lot loc + rv.quantity ∧
      (∀ v ∈ (process_reserve_cancel st rid reason now user stamp).1.reservations,
        v.reserveId = rid → v.status = Status.cancelled)) := by
  constructor
  · intro h
    have hf : st.reservations.find? (cancelPred rid) = none := by
      rw [List.find?_eq_none]
      intro v hv
      simp only [cancelPred, decide_eq_true_eq, not_and]
      intro h1
      exact h v hv h1
    simp [process_reserve_cancel, hf]
  · intro rv lot loc hf hlot hloc hcount
    have hres : process_reserve_cancel st rid reason now user stamp
        = ({ inventory := addQty st.inventory rv.sku lot loc rv.quantity now user stamp,
             reservations := st.reservations.map (cancelUpd rid now user reason) },
            none) := by
      simp [process_reserve_cancel, hf, hlot, hloc]
    refine ⟨by rw [hres], ?_, ?_⟩
    · rw [hres]
      exact sumAt_addQty_self rv.sku lot loc rv.quantity now user stamp
        st.inventory hcount
    · intro v hv hvid
      rw [hres] at hv
      simp only [List.mem_map] at hv
      obtain ⟨w, _, rfl⟩ := hv
      by_cases hw : w.reserveId = rid
      · simp [cancelUpd, hw]
      · simp only [cancelUpd, if_neg hw] at hvid
        exact absurd hvid hw

/-- C6 witness: cancelling the PICKED fixture fails untouched; cancelling the
PENDING fixture reinstates the 4 reserved units at lot A. -/
theorem c6_cancel_pending_only_witness :
    process_reserve_cancel stPick "R1" "why" 7 "u" "T"
      = (stPick, some OpError.reservationNotFound) ∧
    (process_reserve_cancel stPend "R1" "why" 7 "u" "T").2 = none ∧
    sumAt (process_reserve_cancel stPend "R1" "why" 7 "u" "T").1.inventory
        "X" "A" "L1"
      = sumAt stPend.inventory "X" "A" "L1" + resPend.quantity :=
  ⟨(c6_cancel_pending_only stPick "R1" "why" 7 "u" "T").1 (by decide),
   ((c6_cancel_pending_only stPend "R1" "why" 7 "u" "T").2 resPend "A" "L1"
      (by decide) (by decide) (by decide) (by decide)).1,
   ((c6_cancel_pending_only stPend "R1" "why" 7 "u" "T").2 resPend "A" "L1"
      (by decide) (by decide) (by decide) (by decide)).2.1⟩

/-- C8: a reservation that succeeds (positive quantity, sufficient stock,
fresh id, well-keyed ledger) followed immediately by cancelling the returned
id restores the SKU's total quantity over all of its rows: the reserve
deducts exactly qty along the FIFO walk and the cancel reinstates the full
qty at the first touched lot/location. -/
theorem c8_reserve_cancel_roundtrip (st : WState) (sku : String) (qty : Int)
    (resId reason : String) (now now2 : Nat) (user stamp user2 stamp2 : String)
    (hfresh : ∀ v ∈ st.reservations, v.reserveId ≠ resId)
    (hkeys : KeyNodup st.inventory)
    (hq : 0 < qty)
    (htot : qty ≤ availTotal (listAvailable st.inventory sku)) :
    sumSku (process_reserve_cancel
        (process_reserve_item st sku qty resId now user stamp).1
        resId reason now2 user2 stamp2).1.inventory sku
      = sumSku st.inventory sku := by
  have hq' : ¬ qty ≤ 0 := not_le.mpr hq
  have hAne : listAvailable st.inventory sku ≠ [] := by
    intro hnil
    rw [hnil] at htot
    simp only [availTotal, List.map_nil, List.sum_nil] at htot
    omega
  obtain ⟨a0, A', hAcons⟩ := List.exists_cons_of_ne_nil hAne
  have hdedscons : allocDeductions qty (listAvailable st.inventory sku)
      = (a0, min qty a0.quantity)
          :: allocDeductions (qty - min qty a0.quantity) A' := by
    rw [hAcons]
    simp [allocDeductions, hq']
  have hinv1 : ((process_reserve_item st sku qty resId now user stamp).1).inventory
      = applyDeductions st.inventory sku now user stamp
          (allocDeductions qty (listAvailable st.inventory sku)) := by
    simp [process_reserve_item, hq']
  have hresv1 : ((process_reserve_item st sku qty resId now user stamp).1).reservations
      = st.reservations ++
          [{ reserveId := resId, sku := sku, quantity := qty, reservedBy := user,
             reservationDate := now, status := Status.pending,
             reservedLot := some a0.lot, reservedLocation := some a0.location,
             idStamp := stamp }] := by
    simp [process_reserve_item, hq', hdedscons]
  have hfind : ((process_reserve_item st sku qty resId now user stamp).1).reservations.find?
        (cancelPred resId)
      = some { reserveId := resId, sku := sku, quantity := qty, reservedBy := user,
               reservationDate := now, status := Status.pending,
               reservedLot := some a0.lot, reservedLocation := some a0.location,
               idStamp := stamp } := by
    rw [hresv1, List.find?_append]
    have h1 : st.reservations.find? (cancelPred resId) = none := by
      rw [List.find?_eq_none]
      intro v hv
      simp only [cancelPred, decide_eq_true_eq, not_and]
      intro h1
      exact absurd h1 (hfresh v hv)
    rw [h1, Option.none_or]
    simp [List.find?_cons, cancelPred]
  have hcanc : (process_reserve_cancel
        (process_reserve_item st sku qty resId now user stamp).1
        resId reason now2 user2 stamp2).1.inventory
      = addQty ((process_reserve_item st sku qty resId now user stamp).1).inventory
          sku a0.lot a0.location qty now2 user2 stamp2 := by
    simp [process_reserve_cancel, hfind]
  have hhh : ∀ d ∈ allocDeductions qty (listAvailable st.inventory sku),
      d.1.sku = sku ∧
      st.inventory.filter (fun x => invKeyB x sku d.1.lot d.1.location) = [d.1] := by
    intro d hd
    have hmem1 := alloc_fst_mem (listAvailable st.inventory sku) qty d hd
    have hm := mem_listAvailable st.inventory sku d.1 hmem1
    refine ⟨hm.2.1, ?_⟩
    have hfk := filterKey_eq_of_nodup st.inventory hkeys d.1 hm.1
    rw [hm.2.1] at hfk
    exact hfk
  have hpp : List.Pairwise (fun a b => invKey a.1 ≠ invKey b.1)
      (allocDeductions qty (listAvailable st.inventory sku)) := by
    have hnd := keyNodup_listAvailable st.inventory sku hkeys
    have hnd2 : (((allocDeductions qty (listAvailable st.inventory sku)).map
        (fun d => d.1)).map invKey).Nodup :=
      List.Nodup.sublist
        ((alloc_fst_sublist (listAvailable st.inventory sku) qty).map invKey) hnd
    rw [List.map_map] at hnd2
    exact List.pairwise_map.mp hnd2
  have hded : dedTotal (allocDeductions qty (listAvailable st.inventory sku)) = qty :=
    alloc_total_eq (listAvailable st.inventory sku) qty
      (fun r hr => le_of_lt (mem_listAvailable st.inventory sku r hr).2.2)
      (le_of_lt hq) htot
  have hcount : countKey ((process_reserve_item st sku qty resId now user stamp).1).inventory
      sku a0.lot a0.location = 1 := by
    rw [hinv1, countKey_applyDeductions]
    have ha0 : a0 ∈ listAvailable st.inventory sku := by
      rw [hAcons]
      exact List.mem_cons_self _ _
    have hm := mem_listAvailable st.inventory sku a0 ha0
    have hfk := filterKey_eq_of_nodup st.inventory hkeys a0 hm.1
    rw [hm.2.1] at hfk
    simp [countKey, hfk]
  rw [hcanc, sumSku_addQty sku a0.lot a0.location qty now2 user2 stamp2
    ((process_reserve_item st sku qty resId now user stamp).1).inventory hcount,
    hinv1, sumSku_applyDeductions sku now user stamp
      (allocDeductions qty (listAvailable st.inventory sku)) st.inventory hhh hpp,
    hded]
  omega

/-- C8 witness: reserving 8 of the 15 units of SKU X and cancelling the new
reservation brings the SKU total back to 15. -/
theorem c8_reserve_cancel_roundtrip_witness :
    sumSku (process_reserve_cancel
        (process_reserve_item stAB "X" 8 "R9" 7 "u" "T").1
        "R9" "why" 8 "v" "T2").1.inventory "X"
      = sumSku stAB.inventory "X" :=
  c8_reserve_cancel_roundtrip stAB "X" 8 "R9" "why" 7 8 "u" "T" "v" "T2"
    (by decide) (by unfold KeyNodup; decide) (by decide) (by decide)

end WMS
